import Mathlib

/-!
Verification development for the cbr2cbz repository (cmd/convert.go).

The program converts comic-book archives from RAR (`.cbr`) to ZIP (`.cbz`).
We embed, shallowly, the path manipulation helpers from Go's standard
library that the program uses (`path/filepath` on Unix, `strings`), the
injectable filesystem capability (hackpadfs) as an explicit state, the
external archive codec capability (archiver) as an oracle environment,
and the program's own functions `pathToFsPath`, `findFiles`,
`findFilesAndSize`, `getFileSize`, `convert` and `runConvert`.

Machine integers: file sizes are modelled as `Nat` (the Go code uses
`uint64` accumulated from non-negative `info.Size()` values; no overflow
behaviour is relevant at the modelled scale). File contents are `List Nat`
byte lists.
-/

namespace Cbr2Cbz

/-! ## Go standard library: strings and path/filepath (Unix rules) -/

/-- ASCII lowering of one character, as `strings.ToLower` acts on the
ASCII subset (all strings compared in the program are ASCII). -/
def toLowerChar (c : Char) : Char :=
  if 'A' ≤ c ∧ c ≤ 'Z' then Char.ofNat (c.toNat + 32) else c

/-- `strings.ToLower` restricted to ASCII content. -/
def toLowerStr (s : String) : String :=
  String.mk (s.data.map toLowerChar)

/-- `strings.TrimSuffix(s, suffix)`: drop `suffix` once if `s` ends with it. -/
def trimSuffix (s suffix : String) : String :=
  if suffix.data.isSuffixOf s.data then
    String.mk (s.data.take (s.data.length - suffix.data.length))
  else s

/-- `filepath.Ext`: scan the path backwards; stop at the first separator;
return the suffix starting at the final dot of the final element, or "".
The helper works on the reversed character list, accumulating the
characters seen after the final dot. -/
def goExtRev (acc : List Char) : List Char → List Char
  | [] => []
  | c :: rest =>
    if c = '/' then []
    else if c = '.' then c :: acc
    else goExtRev (c :: acc) rest

/-- `filepath.Ext(path)` on Unix. -/
def filepathExt (p : String) : String :=
  String.mk (goExtRev [] p.data.reverse)

/-- Backtracking loop of `filepath.Clean`'s lazy buffer when a `..`
element erases the previous component.  The buffer is represented as a
reversed character list; `last` is the character most recently popped.
Mirrors: `for out.w > dotdot && out.index(out.w) != '/' { out.w-- }`. -/
def cleanBacktrack (dotdot : Nat) : Char → List Char → List Char
  | _, [] => []
  | last, c :: rest =>
    if dotdot < rest.length + 1 ∧ last ≠ '/' then cleanBacktrack dotdot c rest
    else c :: rest

/-- First unconditional pop (`out.w--`) followed by the backtracking loop. -/
def cleanDropComp (dotdot : Nat) : List Char → List Char
  | [] => []
  | c :: rest => cleanBacktrack dotdot c rest

/-- Main loop of `filepath.Clean` (Unix).  `s` is the unread input,
`out` the output buffer in reverse, `dotdot` the index up to which `..`
may not backtrack.  Fuel decreases every iteration; each iteration
consumes at least one input character, so `s.length + 1` fuel is always
sufficient. -/
def cleanLoop (rooted : Bool) : Nat → List Char → List Char → Nat → List Char
  | 0, _, out, _ => out
  | _ + 1, [], out, _ => out
  | fuel + 1, c :: rest, out, dotdot =>
    if c = '/' then
      cleanLoop rooted fuel rest out dotdot
    else if c = '.' ∧ (rest = [] ∨ rest.head? = some '/') then
      cleanLoop rooted fuel rest out dotdot
    else if c = '.' ∧ rest.head? = some '.' ∧
        (rest.tail = [] ∨ rest.tail.head? = some '/') then
      if dotdot < out.length then
        cleanLoop rooted fuel rest.tail (cleanDropComp dotdot out) dotdot
      else if !rooted then
        let out2 := '.' :: '.' :: (if 0 < out.length then '/' :: out else out)
        cleanLoop rooted fuel rest.tail out2 out2.length
      else
        cleanLoop rooted fuel rest.tail out dotdot
    else
      let out2 := if (rooted ∧ out.length ≠ 1) ∨ (!rooted ∧ out.length ≠ 0)
        then '/' :: out else out
      cleanLoop rooted fuel ((c :: rest).dropWhile (· ≠ '/'))
        (((c :: rest).takeWhile (· ≠ '/')).reverse ++ out2) dotdot

/-- `filepath.Clean(path)` on Unix. -/
def clean (path : String) : String :=
  if path = "" then "." else
  let rooted := path.data.head? = some '/'
  let s0 := if rooted then path.data.tail else path.data
  let out0 : List Char := if rooted then ['/'] else []
  let dd0 : Nat := if rooted then 1 else 0
  let os := cleanLoop rooted (s0.length + 1) s0 out0 dd0
  if os.length = 0 then "." else String.mk os.reverse

/-- `filepath.Base(path)` on Unix: strip trailing separators, then keep
everything after the last separator; "" gives ".", all-separators "/". -/
def filepathBase (p : String) : String :=
  if p = "" then "." else
  let trimmed := p.data.reverse.dropWhile (· = '/')
  let b := trimmed.takeWhile (· ≠ '/')
  if b = [] then "/" else String.mk b.reverse

/-- `filepath.Dir(path)` on Unix: everything up to and including the last
separator, cleaned; "." when there is no separator. -/
def filepathDir (p : String) : String :=
  clean (String.mk (p.data.reverse.dropWhile (· ≠ '/')).reverse)

/-- `filepath.Join(a, b)` on Unix: first non-empty element onward joined
with "/" and cleaned; "" when both are empty. -/
def joinGo (a b : String) : String :=
  if a = "" then (if b = "" then "" else clean b) else clean (a ++ "/" ++ b)

/-! ## Filesystem capability (hackpadfs), modelled as explicit state

A filesystem state is an association list from fs-style paths (no leading
or trailing separator, as produced by `pathToFsPath`) to byte contents.
Directories are implicit: a path is a directory when some stored file
lies strictly below it.  Entries are kept in the order `fs.WalkDir`
visits them (Go walks lexically); concrete states below list entries in
that order. -/
structure FSState where
  files : List (String × List Nat)
deriving DecidableEq

/-- Association-list lookup used by the filesystem model. -/
def findIn : List (String × List Nat) → String → Option (List Nat)
  | [], _ => none
  | e :: rest, p => if e.1 = p then some e.2 else findIn rest p

/-- Content of the regular file at `p`, if any (models a successful
`Open` + full read of the file). -/
def lookupFile (fs : FSState) (p : String) : Option (List Nat) :=
  findIn fs.files p

/-- Replace the content stored at `p`, or append a fresh entry. -/
def setFile : List (String × List Nat) → String → List Nat → List (String × List Nat)
  | [], p, content => [(p, content)]
  | e :: rest, p, content =>
    if e.1 = p then (p, content) :: rest else e :: setFile rest p content

/-- Write `content` to the file at `p` (creating it if absent). -/
def writeFile (fs : FSState) (p : String) (content : List Nat) : FSState :=
  ⟨setFile fs.files p content⟩

/-- `hackpadfs.Create`: create the file, truncating existing content. -/
def createFile (fs : FSState) (p : String) : FSState :=
  writeFile fs p []

/-- `hackpadfs.Remove`: drop the entry at `p`. -/
def removeFile (fs : FSState) (p : String) : FSState :=
  ⟨fs.files.filter (fun e => e.1 != p)⟩

/-- Is `p` a directory: the fs root ".", or a proper ancestor of some
stored file. -/
def isDirFs (fs : FSState) (p : String) : Bool :=
  p == "." || fs.files.any (fun e => (p ++ "/").data.isPrefixOf e.1.data)

/-- `fs.Stat`: `some (size, isDir)` when `p` is a stored file or an
implicit directory, `none` (an error) otherwise. -/
def statFs (fs : FSState) (p : String) : Option (Nat × Bool) :=
  match findIn fs.files p with
  | some content => some (content.length, false)
  | none => if isDirFs fs p then some (0, true) else none

/-- All regular files at or below `root`, in stored (walk) order; models
the non-directory entries `fs.WalkDir` reports. -/
def walkDirFiles (fs : FSState) (root : String) : List String :=
  if root = "." then fs.files.map (·.1)
  else (fs.files.map (·.1)).filter
    (fun p => p == root || (root ++ "/").data.isPrefixOf p.data)

/-! ## Archive codec capability (archiver), modelled as an oracle -/

/-- Container formats the sniffer can report. `other` stands for any
recognized format that is neither RAR nor ZIP (e.g. tar). -/
inductive Format
  | rar
  | zip
  | other
deriving DecidableEq

/-- Result of `archiver.Identify`: a matched format, the specific
`ErrNoMatch` error, or some other identification failure. -/
inductive IdentifyOutcome
  | found (f : Format)
  | noMatch
  | failed
deriving DecidableEq

/-- One logical file inside an archive: name in archive and content. -/
abbrev ArchiveEntry := String × List Nat

/-- External capabilities consumed by `convert`: the format sniffer, the
RAR entry enumeration (`fs.WalkDir` over `archiver.ArchiveFS`), the ZIP
serializer (`archiver.Zip{}.Archive`, which streams into the destination
file and may fail after writing a prefix), and failure oracles for the
filesystem operations whose errors the program handles (or ignores). -/
structure Env where
  identify : List Nat → IdentifyOutcome
  rarWalk : List Nat → Except Unit (List ArchiveEntry)
  zipWrite : List ArchiveEntry → List Nat × Option Unit
  renameFails : String → String → Bool
  createFails : String → Bool
  removeFails : String → Bool

/-- `hackpadfs.Rename`: error (and no state change) when the oracle says
the rename fails or the source entry is absent; otherwise move the
content, replacing any file already at the destination. -/
def renameOp (env : Env) (fs : FSState) (oldp newp : String) :
    Except Unit Unit × FSState :=
  if env.renameFails oldp newp then (.error (), fs)
  else match lookupFile fs oldp with
    | none => (.error (), fs)
    | some content => (.ok (), writeFile (removeFile fs oldp) newp content)

/-! ## The program: cmd/convert.go -/

/-- `pathToFsPath`: strip leading and trailing `/` characters. -/
def pathToFsPath (path : String) : String :=
  String.mk ((path.data.reverse.dropWhile (· = '/')).reverse.dropWhile (· = '/'))

/-- Errors `convert` can return, one constructor per `errors.Wrap` /
`errors.New` site in the function, in source order. -/
inductive ConvErr
  | statFailed
  | isADirectory
  | openFailed
  | identifyFailed
  | notARarFile
  | walkFailed
  | createFailed
  | archiveFailed
  | removeFailed
deriving DecidableEq

/-- The transcode tail of `converter.convert`: enumerate the RAR entries,
create (truncating) the destination, stream the ZIP serialization into
it — on serializer failure the bytes already written remain in the
destination file — and, only after a fully successful write, remove the
source. -/
def transcode (env : Env) (fs : FSState) (content : List Nat)
    (cbrFile cbzFile : String) : Except ConvErr Unit × FSState :=
  match env.rarWalk content with
  | .error _ => (.error .walkFailed, fs)
  | .ok entries =>
    if env.createFails (pathToFsPath cbzFile) then (.error .createFailed, fs)
    else
      let fs1 := createFile fs (pathToFsPath cbzFile)
      let written := env.zipWrite entries
      let fs2 := writeFile fs1 (pathToFsPath cbzFile) written.1
      match written.2 with
      | some _ => (.error .archiveFailed, fs2)
      | none =>
        if env.removeFails (pathToFsPath cbrFile) then (.error .removeFailed, fs2)
        else (.ok (), removeFile fs2 (pathToFsPath cbrFile))

/-- `converter.convert`: stat the source, reject directories, open it,
sniff the content; a ZIP is renamed in place (the rename's error value
is discarded, as in the source), a non-RAR is rejected, a RAR is
transcoded.  The match mirrors the source's sequence of checks: an
identify error other than `ErrNoMatch` propagates; a ZIP type assertion
takes the rename branch; `ErrNoMatch` leaves the format nil, so it and
any non-RAR format fall to the "not a rar file" rejection. -/
def convert (env : Env) (fs : FSState) (cbrFile cbzFile : String) :
    Except ConvErr Unit × FSState :=
  match statFs fs (pathToFsPath cbrFile) with
  | none => (.error .statFailed, fs)
  | some info =>
    if info.2 then (.error .isADirectory, fs)
    else
      match lookupFile fs (pathToFsPath cbrFile) with
      | none => (.error .openFailed, fs)
      | some content =>
        match env.identify content with
        | .failed => (.error .identifyFailed, fs)
        | .found .zip =>
          ((Except.ok ()),
            (renameOp env fs (pathToFsPath cbrFile) (pathToFsPath cbzFile)).2)
        | .noMatch => (.error .notARarFile, fs)
        | .found .other => (.error .notARarFile, fs)
        | .found .rar => transcode env fs content cbrFile cbzFile

/-- Errors `findFilesAndSize` / `runConvert` can return: a root path that
fails to stat, the empty-candidate terminal condition ("No files to
convert!"), and a stat failure while computing the size statistics. -/
inductive RunErr
  | pathLookup
  | noFilesToConvert
  | statsFailed
deriving DecidableEq

/-- `findFiles`: walk the tree under `root` and return every
non-directory entry's path with a `/` prepended, in walk order.  In the
model a walk over an existing directory is total, so the walk-error
return of the source is always nil here. -/
def findFiles (fs : FSState) (root : String) : List String :=
  (walkDirFiles fs (pathToFsPath root)).map (fun p => "/" ++ p)

/-- The discovery loop of `findFilesAndSize`: stat each root (aborting
the whole run on the first failure), append the walked files of a
directory root or the file root itself, in root order. -/
def discoverAll (fs : FSState) : List String → Except RunErr (List String)
  | [] => .ok []
  | path :: rest =>
    match statFs fs (pathToFsPath path) with
    | none => .error .pathLookup
    | some info =>
      let here := if info.2 then findFiles fs (joinGo path ".") else [path]
      match discoverAll fs rest with
      | .error e => .error e
      | .ok more => .ok (here ++ more)

/-- The candidate filter of `findFilesAndSize`:
`strings.ToLower(filepath.Ext(file)) == ".cbr"`. -/
def cbrCandidates (files : List String) : List String :=
  files.filter (fun f => toLowerStr (filepathExt f) == ".cbr")

/-- `getFileSize`: sum the sizes of the listed files, skipping those
whose lowered extension differs from `ext` when `ext` is non-empty;
a stat failure aborts. -/
def getFileSize (fs : FSState) (ext : String) : List String → Except Unit Nat
  | [] => .ok 0
  | p :: rest =>
    if 0 < ext.length ∧ toLowerStr (filepathExt p) ≠ ext then
      getFileSize fs ext rest
    else
      match statFs fs (pathToFsPath p) with
      | none => .error ()
      | some info =>
        match getFileSize fs ext rest with
        | .error e => .error e
        | .ok s => .ok (info.1 + s)

/-- `converter.findFilesAndSize`: discover all files under the roots,
filter the `.cbr` candidates, fail with the terminal "No files to
convert!" condition when there are none, then compute both size totals.
Returns `(allFiles, cbrFiles, allSize, cbrSize)`. -/
def findFilesAndSize (fs : FSState) (paths : List String) :
    Except RunErr (List String × List String × Nat × Nat) :=
  match discoverAll fs paths with
  | .error e => .error e
  | .ok allFiles =>
    let cbrFiles := cbrCandidates allFiles
    if cbrFiles.isEmpty then .error .noFilesToConvert
    else
      match getFileSize fs "" allFiles with
      | .error _ => .error .statsFailed
      | .ok allSize =>
        match getFileSize fs ".cbr" cbrFiles with
        | .error _ => .error .statsFailed
        | .ok cbrSize => .ok (allFiles, cbrFiles, allSize, cbrSize)

/-- Destination-path derivation of `runConvert`'s loop body:
`Join(Dir(cbr), TrimSuffix(Base(cbr), Ext(cbr)) + ".cbz")`. -/
def cbzPath (cbrFile : String) : String :=
  joinGo (filepathDir cbrFile)
    (trimSuffix (filepathBase cbrFile) (filepathExt cbrFile) ++ ".cbz")

/-- The orchestrator loop of `runConvert`: convert each candidate in
order; on error record `(sourcePath, error)` and continue with the next
item.  Returns the final filesystem and the failure list in loop
order. -/
def processAll (env : Env) : FSState → List String → FSState × List (String × ConvErr)
  | fs, [] => (fs, [])
  | fs, cbr :: rest =>
    match convert env fs cbr (cbzPath cbr) with
    | (.error e, fs1) =>
      let r := processAll env fs1 rest
      (r.1, (cbr, e) :: r.2)
    | (.ok _, fs1) => processAll env fs1 rest

/-- `converter.runConvert`: run discovery and classification (any setup
error propagates and the filesystem is untouched), then fold the
conversion engine over the candidates and return normally with the
recorded failures. -/
def runConvert (env : Env) (fs : FSState) (paths : List String) :
    Except RunErr (List (String × ConvErr)) × FSState :=
  match findFilesAndSize fs paths with
  | .error e => (.error e, fs)
  | .ok r =>
    let done := processAll env fs r.2.1
    (.ok done.2, done.1)

/-- Per-root expansion of discovery, used to characterize `discoverAll`
as an order-stable concatenation: a directory root contributes its
walked files, a file root contributes itself. -/
def expandRoot (fs : FSState) (path : String) : List String :=
  match statFs fs (pathToFsPath path) with
  | none => []
  | some info => if info.2 then findFiles fs (joinGo path ".") else [path]

/-! ## Concrete fixtures used by the claim witnesses and counterexamples -/

/-- ZIP magic bytes "PK\x03\x04". -/
def zipMagic : List Nat := [80, 75, 3, 4]

/-- RAR magic bytes "Rar!". -/
def rarMagic : List Nat := [82, 97, 114, 33]

/-- A concrete content-based sniffer: classify by the four leading magic
bytes, report `ErrNoMatch` otherwise. -/
def identifyByMagic (content : List Nat) : IdentifyOutcome :=
  if content.take 4 = zipMagic then .found .zip
  else if content.take 4 = rarMagic then .found .rar
  else .noMatch

/-- A concrete ZIP serializer for the oracle: magic followed by the
entry contents in order, always succeeding. -/
def zipEncode (entries : List ArchiveEntry) : List Nat :=
  zipMagic ++ entries.flatMap (fun e => e.2)

/-- A concrete RAR content: magic followed by one page byte. -/
def rarFileBytes : List Nat := rarMagic ++ [9]

/-- A concrete ZIP content stored under a `.cbr` name. -/
def zipFileBytes : List Nat := zipMagic ++ [5, 6]

/-- Entry list the oracle reports for `rarFileBytes`. -/
def rarEntriesFixture : List ArchiveEntry := [("page1.jpg", [9])]

/-- The all-succeeding environment. -/
def envOk : Env where
  identify := identifyByMagic
  rarWalk := fun c => if c = rarFileBytes then .ok rarEntriesFixture else .error ()
  zipWrite := fun es => (zipEncode es, none)
  renameFails := fun _ _ => false
  createFails := fun _ => false
  removeFails := fun _ => false

/-- Environment whose ZIP serializer fails after writing two bytes. -/
def envArchiveFail : Env :=
  { envOk with zipWrite := fun _ => ([80, 75], some ()) }

/-- Environment in which every filesystem rename fails. -/
def envRenameFail : Env :=
  { envOk with renameFails := fun _ _ => true }

/-- Environment in which every filesystem remove fails. -/
def envRemoveFail : Env :=
  { envOk with removeFails := fun _ => true }

/-- One RAR-content file stored as `a.cbr`. -/
def fsRar : FSState := ⟨[("a.cbr", rarFileBytes)]⟩

/-- One ZIP-content file stored as `a.cbr` (a mislabeled input). -/
def fsZip : FSState := ⟨[("a.cbr", zipFileBytes)]⟩

/-- RAR-content `a.cbr` next to an already-present destination `a.cbz`. -/
def fsRarWithDest : FSState := ⟨[("a.cbr", rarFileBytes), ("a.cbz", [1, 1, 1])]⟩

/-- ZIP-content `a.cbr` next to an already-present destination `a.cbz`. -/
def fsZipWithDest : FSState := ⟨[("a.cbr", zipFileBytes), ("a.cbz", [1, 1, 1])]⟩

/-- A filesystem holding only a text file, so discovery finds no
candidates. -/
def fsNoCbr : FSState := ⟨[("readme.txt", [104, 105])]⟩

/-- A file with content no sniffer rule matches, stored as `a.cbr`. -/
def fsUnknown : FSState := ⟨[("a.cbr", [1, 2, 3])]⟩

/-- A two-candidate batch whose first item is not an archive. -/
def fsBatch : FSState := ⟨[("bad.cbr", [1, 2, 3]), ("good.cbr", rarFileBytes)]⟩

/-! ## Helper lemmas about the filesystem state -/

deriving instance DecidableEq for Except

theorem findIn_setFile_self (l : List (String × List Nat)) (p : String) (c : List Nat) :
    findIn (setFile l p c) p = some c := by
  induction l with
  | nil => simp [setFile, findIn]
  | cons e rest ih =>
    by_cases h : e.1 = p <;> simp [setFile, findIn, h, ih]

theorem findIn_setFile_ne (l : List (String × List Nat)) (p : String) (c : List Nat)
    (q : String) (h : q ≠ p) : findIn (setFile l p c) q = findIn l q := by
  induction l with
  | nil => simp [setFile, findIn, Ne.symm h]
  | cons e rest ih =>
    by_cases he : e.1 = p <;> simp [setFile, findIn, he, Ne.symm h, ih]

theorem findIn_filter_ne (l : List (String × List Nat)) (p q : String) (h : q ≠ p) :
    findIn (l.filter (fun e => e.1 != p)) q = findIn l q := by
  induction l with
  | nil => simp
  | cons e rest ih =>
    by_cases he : e.1 = p <;>
      simp [List.filter_cons, he, findIn, Ne.symm h, ih, bne_iff_ne]

theorem findIn_filter_self (l : List (String × List Nat)) (p : String) :
    findIn (l.filter (fun e => e.1 != p)) p = none := by
  induction l with
  | nil => simp [findIn]
  | cons e rest ih =>
    by_cases he : e.1 = p <;> simp [List.filter_cons, he, findIn, ih, bne_iff_ne]

theorem lookupFile_writeFile_self (fs : FSState) (p : String) (c : List Nat) :
    lookupFile (writeFile fs p c) p = some c :=
  findIn_setFile_self fs.files p c

theorem lookupFile_writeFile_ne (fs : FSState) (p : String) (c : List Nat)
    (q : String) (h : q ≠ p) : lookupFile (writeFile fs p c) q = lookupFile fs q :=
  findIn_setFile_ne fs.files p c q h

theorem lookupFile_createFile_ne (fs : FSState) (p q : String) (h : q ≠ p) :
    lookupFile (createFile fs p) q = lookupFile fs q :=
  lookupFile_writeFile_ne fs p [] q h

theorem lookupFile_removeFile_ne (fs : FSState) (p q : String) (h : q ≠ p) :
    lookupFile (removeFile fs p) q = lookupFile fs q :=
  findIn_filter_ne fs.files p q h

theorem lookupFile_removeFile_self (fs : FSState) (p : String) :
    lookupFile (removeFile fs p) p = none :=
  findIn_filter_self fs.files p

/-- C1 (amended): on every error return of `convert` — stat, open or
identify failure, rejection, entry-walk failure, container-creation
failure, archive-write failure, or source-removal failure — the source
path still holds its original bytes; the source is removed only in the
fully successful transcode branch.  (The original claim's further
assertion that no partially-written destination is observable is refuted
by `c1_partial_destination_counterexample`.) -/
theorem c1_convert_failure_preserves_source (env : Env) (fs : FSState) (cbr cbz : String)
    (hne : pathToFsPath cbz ≠ pathToFsPath cbr) (e : ConvErr) (fs2 : FSState)
    (h : convert env fs cbr cbz = (.error e, fs2)) :
    lookupFile fs2 (pathToFsPath cbr) = lookupFile fs (pathToFsPath cbr) := by
  unfold convert at h
  cases hstat : statFs fs (pathToFsPath cbr) with
  | none =>
    simp only [hstat] at h
    simp only [Prod.mk.injEq] at h
    rw [← h.2]
  | some info =>
    simp only [hstat] at h
    by_cases hd : info.2 = true
    · rw [if_pos hd] at h
      simp only [Prod.mk.injEq] at h
      rw [← h.2]
    · rw [if_neg hd] at h
      cases hopen : lookupFile fs (pathToFsPath cbr) with
      | none =>
        simp only [hopen] at h
        simp only [Prod.mk.injEq] at h
        rw [← h.2]
        exact hopen
      | some content =>
        simp only [hopen] at h
        cases hid : env.identify content with
        | failed =>
          simp only [hid, Prod.mk.injEq] at h
          rw [← h.2]; exact hopen
        | noMatch =>
          simp only [hid, Prod.mk.injEq] at h
          rw [← h.2]; exact hopen
        | found f =>
          simp only [hid] at h
          cases f with
          | zip => simp only [Prod.mk.injEq] at h; exact absurd h.1 (by simp)
          | other =>
            simp only [Prod.mk.injEq] at h
            rw [← h.2]; exact hopen
          | rar =>
            unfold transcode at h
            cases hwalk : env.rarWalk content with
            | error u =>
              simp only [hwalk, Prod.mk.injEq] at h
              rw [← h.2]; exact hopen
            | ok entries =>
              simp only [hwalk] at h
              by_cases hcf : env.createFails (pathToFsPath cbz) = true
              · rw [if_pos hcf] at h
                simp only [Prod.mk.injEq] at h
                rw [← h.2]; exact hopen
              · rw [if_neg hcf] at h
                rcases hw : env.zipWrite entries with ⟨bytes, werr⟩
                simp only [hw] at h
                cases werr with
                | some u =>
                  simp only [Prod.mk.injEq] at h
                  rw [← h.2, lookupFile_writeFile_ne _ _ _ _ (Ne.symm hne),
                    lookupFile_createFile_ne _ _ _ (Ne.symm hne)]
                  exact hopen
                | none =>
                  by_cases hrm : env.removeFails (pathToFsPath cbr) = true
                  · rw [if_pos hrm] at h
                    simp only [Prod.mk.injEq] at h
                    rw [← h.2, lookupFile_writeFile_ne _ _ _ _ (Ne.symm hne),
                      lookupFile_createFile_ne _ _ _ (Ne.symm hne)]
                    exact hopen
                  · rw [if_neg hrm] at h
                    simp only [Prod.mk.injEq] at h
                    exact absurd h.1 (by simp)

/-! ## Claim theorems, witnesses and counterexamples -/

/-- The orchestrator loop is sequential composition: processing a
concatenated candidate list processes the first part, then the second
from the resulting state, and concatenates the recorded failures — in
particular the loop continues past any number of failing items. -/
theorem processAll_append (env : Env) (cs ds : List String) :
    ∀ g : FSState, processAll env g (cs ++ ds) =
      ((processAll env (processAll env g cs).1 ds).1,
       (processAll env g cs).2 ++ (processAll env (processAll env g cs).1 ds).2) := by
  induction cs with
  | nil => intro g; simp [processAll]
  | cons c rest ih =>
    intro g
    simp only [List.cons_append, processAll]
    rcases hc : convert env g c (cbzPath c) with ⟨r, fs1⟩
    cases r with
    | error e => simp [ih]
    | ok u => simp [ih]

/-- The failure map's keys are the failing source paths, listed as a
subsequence of the candidate list (discovery order preserved). -/
theorem processAll_fst_sublist (env : Env) (cs : List String) :
    ∀ g : FSState, ((processAll env g cs).2.map Prod.fst).Sublist cs := by
  induction cs with
  | nil => intro g; simp [processAll]
  | cons c rest ih =>
    intro g
    simp only [processAll]
    rcases hc : convert env g c (cbzPath c) with ⟨r, fs1⟩
    cases r with
    | error e => simpa using (ih fs1).cons₂ c
    | ok u => exact (ih fs1).cons c

/-- C3: with the source statted as a regular file and opened, `convert`
performs exactly one outcome keyed on the sniffed format: an identify
failure other than no-format-matched propagates; the no-format-matched
result and any format that is neither RAR nor ZIP hit the
not-an-archive rejection with the filesystem untouched; ZIP takes the
rename branch; RAR takes the transcode branch. -/
theorem c3_convert_three_outcomes (env : Env) (fs : FSState) (cbr cbz : String)
    (info : Nat × Bool) (content : List Nat)
    (hstat : statFs fs (pathToFsPath cbr) = some info) (hdir : info.2 = false)
    (hopen : lookupFile fs (pathToFsPath cbr) = some content) :
    (env.identify content = .failed →
      convert env fs cbr cbz = (.error .identifyFailed, fs)) ∧
    (env.identify content = .noMatch →
      convert env fs cbr cbz = (.error .notARarFile, fs)) ∧
    (env.identify content = .found .other →
      convert env fs cbr cbz = (.error .notARarFile, fs)) ∧
    (env.identify content = .found .zip →
      convert env fs cbr cbz =
        ((Except.ok ()), (renameOp env fs (pathToFsPath cbr) (pathToFsPath cbz)).2)) ∧
    (env.identify content = .found .rar →
      convert env fs cbr cbz = transcode env fs content cbr cbz) := by
  refine ⟨fun h => ?_, fun h => ?_, fun h => ?_, fun h => ?_, fun h => ?_⟩ <;>
    simp [convert, hstat, hdir, hopen, h]

/-- C9: when discovery succeeds but yields no `.cbr` candidates, the run
terminates with the "No files to convert!" condition before any
conversion, and the returned filesystem state is the input state (no
mutation). -/
theorem c9_no_candidates_terminal (env : Env) (fs : FSState)
    (paths allFiles : List String)
    (hdisc : discoverAll fs paths = .ok allFiles)
    (hempty : cbrCandidates allFiles = []) :
    runConvert env fs paths = (.error .noFilesToConvert, fs) := by
  simp [runConvert, findFilesAndSize, hdisc, hempty]

/-- C6 (amended): when every root stats successfully, discovery returns
the order-stable concatenation, over the roots in order, of each
directory root's recursively walked files and each file root itself —
with no deduplication, so overlapping or repeated roots yield duplicate
entries (see `c6_no_dedup_counterexample`). -/
theorem c6_discovery_concatenation (fs : FSState) (paths : List String)
    (h : ∀ p ∈ paths, (statFs fs (pathToFsPath p)).isSome) :
    discoverAll fs paths = .ok (paths.flatMap (expandRoot fs)) := by
  induction paths with
  | nil => rfl
  | cons p rest ih =>
    have hp := h p (List.mem_cons_self p rest)
    have hrest := fun q hq => h q (List.mem_cons_of_mem p hq)
    cases hstat : statFs fs (pathToFsPath p) with
    | none => rw [hstat] at hp; simp at hp
    | some info =>
      simp [discoverAll, hstat, ih hrest, expandRoot]

/-- C7: a discovered item is classified as a conversion candidate if and
only if the lowered `filepath.Ext` of its name is `.cbr`; in particular
`X.CBR` and `x.cbr` qualify case-insensitively while target-extension
and other files do not. -/
theorem c7_candidate_classification :
    (∀ (files : List String) (f : String),
      f ∈ cbrCandidates files ↔ f ∈ files ∧ toLowerStr (filepathExt f) = ".cbr") ∧
    toLowerStr (filepathExt "a/X.CBR") = ".cbr" ∧
    toLowerStr (filepathExt "x.cbr") = ".cbr" ∧
    ¬ toLowerStr (filepathExt "x.cbz") = ".cbr" ∧
    ¬ toLowerStr (filepathExt "x.txt") = ".cbr" := by
  refine ⟨fun files f => ?_, by decide, by decide, by decide, by decide⟩
  simp [cbrCandidates, List.mem_filter]

/-- C8: the destination path is derived deterministically by stripping
the source extension from the filename and appending the target
extension in the same directory: appending `.cbr` to any stem is
stripped exactly by the extension helpers, `a/b/test.cbr` maps to
`a/b/test.cbz`, and root-level `test.cbr` maps to `test.cbz`. -/
theorem c8_destination_derivation :
    (∀ s : String, filepathExt (s ++ ".cbr") = ".cbr") ∧
    (∀ s : String, trimSuffix (s ++ ".cbr") ".cbr" = s) ∧
    cbzPath "a/b/test.cbr" = "a/b/test.cbz" ∧
    cbzPath "test.cbr" = "test.cbz" := by
  refine ⟨fun s => ?_, fun s => ?_, by decide, by decide⟩
  · show String.mk (goExtRev [] (s ++ ".cbr").data.reverse) = ".cbr"
    have : (s ++ ".cbr").data = s.data ++ ['.', 'c', 'b', 'r'] := by
      simp [String.data_append]
    rw [this]
    simp [goExtRev]
  · unfold trimSuffix
    have hsuf : (".cbr" : String).data.isSuffixOf (s ++ ".cbr").data = true := by
      rw [List.isSuffixOf_iff_suffix]
      show (".cbr" : String).data <:+ s.data ++ (".cbr" : String).data
      exact List.suffix_append s.data (".cbr" : String).data
    rw [if_pos hsuf]
    have hlen : (s ++ ".cbr").data.length - (".cbr" : String).data.length
        = s.data.length := by
      simp [String.data_append]
    rw [hlen]
    have htake : (s ++ ".cbr").data.take s.data.length = s.data := by
      show (s.data ++ (".cbr" : String).data).take s.data.length = s.data
      exact List.take_left s.data _
    rw [htake]


/-- C5: when the transcode fully writes the destination and only the
source removal fails, `convert` returns the dedicated removal error —
a constructor distinct from the pre-output creation and write errors —
and both the original source and the completely written destination
remain present. -/
theorem c5_remove_failure_distinct (env : Env) (fs : FSState) (cbr cbz : String)
    (info : Nat × Bool) (content : List Nat) (entries : List ArchiveEntry)
    (bytes : List Nat)
    (hne : pathToFsPath cbz ≠ pathToFsPath cbr)
    (hstat : statFs fs (pathToFsPath cbr) = some info) (hdir : info.2 = false)
    (hopen : lookupFile fs (pathToFsPath cbr) = some content)
    (hid : env.identify content = .found .rar)
    (hwalk : env.rarWalk content = .ok entries)
    (hcf : env.createFails (pathToFsPath cbz) = false)
    (hzw : env.zipWrite entries = (bytes, none))
    (hrm : env.removeFails (pathToFsPath cbr) = true) :
    (convert env fs cbr cbz).1 = .error .removeFailed ∧
    lookupFile (convert env fs cbr cbz).2 (pathToFsPath cbr) = some content ∧
    lookupFile (convert env fs cbr cbz).2 (pathToFsPath cbz) = some bytes ∧
    ConvErr.removeFailed ≠ ConvErr.createFailed ∧
    ConvErr.removeFailed ≠ ConvErr.archiveFailed := by
  have hconv : convert env fs cbr cbz =
      (.error .removeFailed,
        writeFile (createFile fs (pathToFsPath cbz)) (pathToFsPath cbz) bytes) := by
    simp [convert, transcode, hstat, hdir, hopen, hid, hwalk, hcf, hzw, hrm]
  rw [hconv]
  refine ⟨rfl, ?_, lookupFile_writeFile_self _ _ _, by simp, by simp⟩
  rw [lookupFile_writeFile_ne _ _ _ _ (Ne.symm hne),
    lookupFile_createFile_ne _ _ _ (Ne.symm hne)]
  exact hopen

/-- C10: a pre-existing destination file raises no error: the rename
branch replaces it with the source's bytes, and the transcode branch
creates/truncates it and overwrites it with the new archive bytes. -/
theorem c10_destination_overwritten :
    (∀ (env : Env) (fs : FSState) (cbr cbz : String) (info : Nat × Bool)
      (content oldContent : List Nat),
      pathToFsPath cbr ≠ pathToFsPath cbz →
      lookupFile fs (pathToFsPath cbz) = some oldContent →
      statFs fs (pathToFsPath cbr) = some info → info.2 = false →
      lookupFile fs (pathToFsPath cbr) = some content →
      env.identify content = .found .zip →
      env.renameFails (pathToFsPath cbr) (pathToFsPath cbz) = false →
      (convert env fs cbr cbz).1 = Except.ok () ∧
      lookupFile (convert env fs cbr cbz).2 (pathToFsPath cbz) = some content ∧
      lookupFile (convert env fs cbr cbz).2 (pathToFsPath cbr) = none) ∧
    (∀ (env : Env) (fs : FSState) (cbr cbz : String) (info : Nat × Bool)
      (content oldContent : List Nat) (entries : List ArchiveEntry) (bytes : List Nat),
      pathToFsPath cbr ≠ pathToFsPath cbz →
      lookupFile fs (pathToFsPath cbz) = some oldContent →
      statFs fs (pathToFsPath cbr) = some info → info.2 = false →
      lookupFile fs (pathToFsPath cbr) = some content →
      env.identify content = .found .rar →
      env.rarWalk content = .ok entries →
      env.createFails (pathToFsPath cbz) = false →
      env.zipWrite entries = (bytes, none) →
      env.removeFails (pathToFsPath cbr) = false →
      (convert env fs cbr cbz).1 = Except.ok () ∧
      lookupFile (convert env fs cbr cbz).2 (pathToFsPath cbz) = some bytes) := by
  constructor
  · intro env fs cbr cbz info content oldContent hne hdest hstat hdir hopen hid hrn
    have hconv : convert env fs cbr cbz =
        ((Except.ok ()),
          writeFile (removeFile fs (pathToFsPath cbr)) (pathToFsPath cbz) content) := by
      simp [convert, renameOp, hstat, hdir, hopen, hid, hrn]
    rw [hconv]
    refine ⟨rfl, lookupFile_writeFile_self _ _ _, ?_⟩
    rw [lookupFile_writeFile_ne _ _ _ _ hne, lookupFile_removeFile_self]
  · intro env fs cbr cbz info content oldContent entries bytes hne hdest hstat hdir
      hopen hid hwalk hcf hzw hrm
    have hconv : convert env fs cbr cbz =
        ((Except.ok ()),
          removeFile
            (writeFile (createFile fs (pathToFsPath cbz)) (pathToFsPath cbz) bytes)
            (pathToFsPath cbr)) := by
      simp [convert, transcode, hstat, hdir, hopen, hid, hwalk, hcf, hzw, hrm]
    rw [hconv]
    refine ⟨rfl, ?_⟩
    rw [lookupFile_removeFile_ne _ _ _ (Ne.symm hne), lookupFile_writeFile_self]

/-- C4: once setup succeeds, the orchestrator returns normally with the
failure list produced by folding the conversion engine over the
candidates in discovery order; the failure keys form an order-preserving
subsequence of the candidate list, and the loop composes over
concatenation, so failing items never halt the batch and per-item errors
never propagate past the orchestrator. -/
theorem c4_orchestrator_isolates_failures (env : Env) (fs : FSState)
    (paths allFiles cbrFiles : List String) (a b : Nat)
    (hsetup : findFilesAndSize fs paths = .ok (allFiles, cbrFiles, a, b)) :
    runConvert env fs paths =
      (.ok (processAll env fs cbrFiles).2, (processAll env fs cbrFiles).1) ∧
    ((processAll env fs cbrFiles).2.map Prod.fst).Sublist cbrFiles ∧
    (∀ (g : FSState) (cs ds : List String), processAll env g (cs ++ ds) =
      ((processAll env (processAll env g cs).1 ds).1,
       (processAll env g cs).2 ++ (processAll env (processAll env g cs).1 ds).2)) := by
  refine ⟨?_, processAll_fst_sublist env cbrFiles fs,
    fun g cs ds => processAll_append env cs ds g⟩
  simp [runConvert, hsetup]


/-- C1 counterexample: a ZIP serializer failure after two bytes leaves
`convert` returning the archive-write error while the destination path
`a.cbz` exists holding exactly the partial prefix `[80, 75]` — a
partially-written destination observable to a subsequent read, refuting
the claim's no-partial-destination conjunct. -/
theorem c1_partial_destination_counterexample :
    (convert envArchiveFail fsRar "a.cbr" "a.cbz").1 = .error .archiveFailed ∧
    lookupFile (convert envArchiveFail fsRar "a.cbr" "a.cbz").2 "a.cbz" = some [80, 75] ∧
    lookupFile (convert envArchiveFail fsRar "a.cbr" "a.cbz").2 "a.cbz" ≠
      some (zipEncode rarEntriesFixture) := by decide

/-- C1 witness: `c1_convert_failure_preserves_source` instantiated at
the failing archive write on `fsRar`: the error is returned and the
source entry is unchanged. -/
theorem c1_witness :
    (pathToFsPath "a.cbz" ≠ pathToFsPath "a.cbr" ∧
     convert envArchiveFail fsRar "a.cbr" "a.cbz" =
       (.error .archiveFailed, ⟨[("a.cbr", rarFileBytes), ("a.cbz", [80, 75])]⟩)) ∧
    lookupFile (⟨[("a.cbr", rarFileBytes), ("a.cbz", [80, 75])]⟩ : FSState)
      (pathToFsPath "a.cbr") = lookupFile fsRar (pathToFsPath "a.cbr") :=
  ⟨⟨by decide, by decide⟩,
    c1_convert_failure_preserves_source envArchiveFail fsRar "a.cbr" "a.cbz" (by decide)
      .archiveFailed _ (by decide)⟩

/-- C2 failing input: on a ZIP-content `a.cbr` whose rename to `a.cbz`
fails, `convert` still returns success while the source remains and no
destination exists — the rename branch discards the rename error, so
success does not imply the claimed post-condition. -/
theorem c2_rename_error_swallowed :
    (convert envRenameFail fsZip "a.cbr" "a.cbz").1 = Except.ok () ∧
    lookupFile (convert envRenameFail fsZip "a.cbr" "a.cbz").2 "a.cbr" = some zipFileBytes ∧
    lookupFile (convert envRenameFail fsZip "a.cbr" "a.cbz").2 "a.cbz" = none := by decide

/-- C3 witness: the rejection outcome at an unrecognized three-byte
file: `convert` fails with the not-an-archive error and leaves the
state untouched. -/
theorem c3_witness :
    (statFs fsUnknown (pathToFsPath "a.cbr") = some (3, false) ∧
     lookupFile fsUnknown (pathToFsPath "a.cbr") = some [1, 2, 3] ∧
     envOk.identify [1, 2, 3] = .noMatch) ∧
    convert envOk fsUnknown "a.cbr" "a.cbz" = (.error .notARarFile, fsUnknown) :=
  ⟨⟨by decide, by decide, by decide⟩,
    (c3_convert_three_outcomes envOk fsUnknown "a.cbr" "a.cbz" (3, false) [1, 2, 3]
      (by decide) rfl (by decide)).2.1 (by decide)⟩

/-- C4 witness: `c4_orchestrator_isolates_failures` at a two-candidate
batch whose first item is not an archive. -/
theorem c4_witness :
    (findFilesAndSize fsBatch ["bad.cbr", "good.cbr"] =
      .ok (["bad.cbr", "good.cbr"], ["bad.cbr", "good.cbr"], 8, 8)) ∧
    (runConvert envOk fsBatch ["bad.cbr", "good.cbr"] =
      (.ok (processAll envOk fsBatch ["bad.cbr", "good.cbr"]).2,
       (processAll envOk fsBatch ["bad.cbr", "good.cbr"]).1) ∧
     ((processAll envOk fsBatch ["bad.cbr", "good.cbr"]).2.map Prod.fst).Sublist
       ["bad.cbr", "good.cbr"] ∧
     (∀ (g : FSState) (cs ds : List String), processAll envOk g (cs ++ ds) =
       ((processAll envOk (processAll envOk g cs).1 ds).1,
        (processAll envOk g cs).2 ++
          (processAll envOk (processAll envOk g cs).1 ds).2))) :=
  ⟨by decide,
    c4_orchestrator_isolates_failures envOk fsBatch ["bad.cbr", "good.cbr"]
      ["bad.cbr", "good.cbr"] ["bad.cbr", "good.cbr"] 8 8 (by decide)⟩

/-- C5 witness: `c5_remove_failure_distinct` at `fsRar` under the
environment whose removes always fail. -/
theorem c5_witness :
    (pathToFsPath "a.cbz" ≠ pathToFsPath "a.cbr" ∧
     statFs fsRar (pathToFsPath "a.cbr") = some (5, false) ∧
     lookupFile fsRar (pathToFsPath "a.cbr") = some rarFileBytes ∧
     envRemoveFail.identify rarFileBytes = .found .rar ∧
     envRemoveFail.rarWalk rarFileBytes = .ok rarEntriesFixture ∧
     envRemoveFail.createFails (pathToFsPath "a.cbz") = false ∧
     envRemoveFail.zipWrite rarEntriesFixture = (zipEncode rarEntriesFixture, none) ∧
     envRemoveFail.removeFails (pathToFsPath "a.cbr") = true) ∧
    ((convert envRemoveFail fsRar "a.cbr" "a.cbz").1 = .error .removeFailed ∧
     lookupFile (convert envRemoveFail fsRar "a.cbr" "a.cbz").2
       (pathToFsPath "a.cbr") = some rarFileBytes ∧
     lookupFile (convert envRemoveFail fsRar "a.cbr" "a.cbz").2
       (pathToFsPath "a.cbz") = some (zipEncode rarEntriesFixture) ∧
     ConvErr.removeFailed ≠ ConvErr.createFailed ∧
     ConvErr.removeFailed ≠ ConvErr.archiveFailed) :=
  ⟨by decide,
    c5_remove_failure_distinct envRemoveFail fsRar "a.cbr" "a.cbz" (5, false)
      rarFileBytes rarEntriesFixture (zipEncode rarEntriesFixture) (by decide)
      (by decide) rfl (by decide) (by decide) (by decide) (by decide) (by decide)
      (by decide)⟩

/-- C6 counterexample: the same file root supplied twice is discovered
twice — the discovered list (and the candidate list) contain `a.cbr`
two times, so discovery is not deduplicated. -/
theorem c6_no_dedup_counterexample :
    findFilesAndSize fsRar ["a.cbr", "a.cbr"] =
      .ok (["a.cbr", "a.cbr"], ["a.cbr", "a.cbr"], 10, 10) ∧
    ¬ (["a.cbr", "a.cbr"] : List String).Nodup := by decide

/-- C6 witness: `c6_discovery_concatenation` at the repeated file
root. -/
theorem c6_witness :
    (∀ p ∈ ["a.cbr", "a.cbr"], (statFs fsRar (pathToFsPath p)).isSome) ∧
    discoverAll fsRar ["a.cbr", "a.cbr"] =
      .ok (["a.cbr", "a.cbr"].flatMap (expandRoot fsRar)) :=
  ⟨by decide, c6_discovery_concatenation fsRar ["a.cbr", "a.cbr"] (by decide)⟩

/-- C9 witness: `c9_no_candidates_terminal` on a root directory holding
only a text file. -/
theorem c9_witness :
    (discoverAll fsNoCbr ["."] = .ok ["/readme.txt"] ∧
     cbrCandidates ["/readme.txt"] = []) ∧
    runConvert envOk fsNoCbr ["."] = (.error .noFilesToConvert, fsNoCbr) :=
  ⟨⟨by decide, by decide⟩,
    c9_no_candidates_terminal envOk fsNoCbr ["."] ["/readme.txt"] (by decide)
      (by decide)⟩

/-- C10 witness: `c10_destination_overwritten` at filesystems where
`a.cbz` already exists, for both the rename and the transcode
branches. -/
theorem c10_witness :
    ((pathToFsPath "a.cbr" ≠ pathToFsPath "a.cbz" ∧
      lookupFile fsZipWithDest (pathToFsPath "a.cbz") = some [1, 1, 1] ∧
      statFs fsZipWithDest (pathToFsPath "a.cbr") = some (6, false) ∧
      lookupFile fsZipWithDest (pathToFsPath "a.cbr") = some zipFileBytes ∧
      envOk.identify zipFileBytes = .found .zip ∧
      envOk.renameFails (pathToFsPath "a.cbr") (pathToFsPath "a.cbz") = false) ∧
     ((convert envOk fsZipWithDest "a.cbr" "a.cbz").1 = Except.ok () ∧
      lookupFile (convert envOk fsZipWithDest "a.cbr" "a.cbz").2
        (pathToFsPath "a.cbz") = some zipFileBytes ∧
      lookupFile (convert envOk fsZipWithDest "a.cbr" "a.cbz").2
        (pathToFsPath "a.cbr") = none)) ∧
    ((lookupFile fsRarWithDest (pathToFsPath "a.cbz") = some [1, 1, 1] ∧
      statFs fsRarWithDest (pathToFsPath "a.cbr") = some (5, false) ∧
      lookupFile fsRarWithDest (pathToFsPath "a.cbr") = some rarFileBytes) ∧
     ((convert envOk fsRarWithDest "a.cbr" "a.cbz").1 = Except.ok () ∧
      lookupFile (convert envOk fsRarWithDest "a.cbr" "a.cbz").2
        (pathToFsPath "a.cbz") = some (zipEncode rarEntriesFixture))) :=
  ⟨⟨by decide,
    c10_destination_overwritten.1 envOk fsZipWithDest "a.cbr" "a.cbz" (6, false)
      zipFileBytes [1, 1, 1] (by decide) (by decide) (by decide) rfl (by decide)
      (by decide) (by decide)⟩,
   ⟨by decide,
    c10_destination_overwritten.2 envOk fsRarWithDest "a.cbr" "a.cbz" (5, false)
      rarFileBytes [1, 1, 1] rarEntriesFixture (zipEncode rarEntriesFixture)
      (by decide) (by decide) (by decide) rfl (by decide) (by decide) (by decide)
      (by decide) (by decide) (by decide)⟩⟩

end Cbr2Cbz
